import Mathlib

namespace PdfToVideo

/-!
Shallow embedding of `pdf_to_video.py` (kuraken88/pdf2mp4).

Strings are modelled as `List Char` (with `String` wrappers where the source
passes Python `str`).  Each Python `re.sub` call in the source is embedded as
a dedicated scanner with the leftmost, non-overlapping, backtracking
semantics of Python's `re` module.  External effects (PyMuPDF, gTTS, ffmpeg,
the file system) are modelled by an environment `Env` of outcome oracles;
the orchestrator `pdf_to_video` is a pure function from the environment to a
trace of everything the run did.
-/

/-- Python's whitespace class for `str` patterns (`\s`, `str.strip()`):
ASCII whitespace plus the Unicode White_Space code points. -/
def pyIsSpace (c : Char) : Bool :=
  c = ' ' || c = '\t' || c = '\n' || c = '\r' || c = '\x0b' || c = '\x0c' ||
  c = '\x1c' || c = '\x1d' || c = '\x1e' || c = '\x1f' || c = '\x85' ||
  c = '\xa0' || c = ' ' || (0x2000 ≤ c.val && c.val ≤ 0x200a) ||
  c = ' ' || c = ' ' || c = ' ' || c = ' ' || c = '　'

/-- The Japanese sentence punctuation class `[。！？]` used by
`markdown_to_speech_text`. -/
def isJaPunct (c : Char) : Bool :=
  c = '。' || c = '！' || c = '？'

/-! ### `re.sub(r'##\s*(.*?)\n', r'\1。', text)`

Python attempts a match at each position; at a position the pattern matches
when the text starts with `##`, then `\s*` (greedy, backtracking from the
longest whitespace run), then a lazy group of non-newline characters, then a
literal newline.  For a fixed length `j` taken by `\s*` the lazy group ends
at the first newline at or after that point, so the greedy/lazy interplay
reduces to: take the largest `j` bounded by the whitespace run such that a
newline still occurs in the remainder. -/

/-- Backtracking search for the length taken by `\s*`: try `j` first, then
`j-1`, ..., `0`; a candidate succeeds when a `'\n'` (the mandatory final
character of the pattern) remains in `rest.drop j`. -/
def hdrBacktrack : Nat → List Char → Option Nat
  | j, rest =>
    if '\n' ∈ rest.drop j then some j
    else match j with
      | 0 => none
      | j' + 1 => hdrBacktrack j' rest

/-- Match `##\s*(.*?)\n` at the head of `l`; returns the captured group and
the remainder of the text after the match. -/
def hdrMatch (l : List Char) : Option (List Char × List Char) :=
  match l with
  | c :: d :: rest =>
    if c = '#' ∧ d = '#' then
      match hdrBacktrack (rest.takeWhile pyIsSpace).length rest with
      | none => none
      | some j =>
        let g := (rest.drop j).takeWhile (fun c => c ≠ '\n')
        some (g, ((rest.drop j).drop (g.length + 1)))
    else none
  | _ => none

theorem hdrMatch_rest_length {l g r : List Char} (h : hdrMatch l = some (g, r)) :
    r.length < l.length := by
  match l with
  | [] => simp [hdrMatch] at h
  | [c] => simp [hdrMatch] at h
  | c :: d :: rest =>
    simp only [hdrMatch] at h
    split at h
    · cases hb : hdrBacktrack (rest.takeWhile pyIsSpace).length rest with
      | none => rw [hb] at h; simp at h
      | some j =>
        rw [hb] at h
        simp only [Option.some.injEq, Prod.mk.injEq] at h
        obtain ⟨_, hr⟩ := h
        subst hr
        have h1 : ((rest.drop j).drop
            (((rest.drop j).takeWhile (fun c => c ≠ '\n')).length + 1)).length ≤
            rest.length := by
          calc ((rest.drop j).drop _).length ≤ (rest.drop j).length :=
                (List.drop_sublist _ _).length_le
            _ ≤ rest.length := (List.drop_sublist _ _).length_le
        simp only [List.length_cons]
        omega
    · simp at h

/-- Embeds `re.sub(r'##\s*(.*?)\n', r'\1。', text)`: leftmost non-overlapping
replacement; scanning resumes after each match. -/
def subHeader : List Char → List Char
  | [] => []
  | c :: cs =>
    match hm : hdrMatch (c :: cs) with
    | some (g, r) => g ++ '。' :: subHeader r
    | none => c :: subHeader cs
termination_by l => l.length
decreasing_by
  · exact hdrMatch_rest_length hm
  · simp

/-- Embeds `re.sub(r'\n\n', '。', text)`: each non-overlapping pair of newlines
becomes a Japanese full stop. -/
def subParas : List Char → List Char
  | '\n' :: '\n' :: cs => '。' :: subParas cs
  | c :: cs => c :: subParas cs
  | [] => []

/-- Embeds `re.sub(r'\s+', ' ', text)` over a whitespace class `p`: every maximal
run of `p`-characters collapses to a single ASCII space. -/
def collapseWs (p : Char → Bool) : List Char → List Char
  | [] => []
  | c :: cs =>
    if p c then ' ' :: collapseWs p (cs.dropWhile p)
    else c :: collapseWs p cs
termination_by l => l.length
decreasing_by
  · have := (List.dropWhile_sublist (l := cs) (p := p)).length_le
    simp only [List.length_cons]; omega
  · simp

/-- Embeds `re.sub(r'\s+', ' ', text)`. -/
def subSpaces : List Char → List Char := collapseWs pyIsSpace

/-- Embeds `re.sub(r'([。！？])\s*', r'\1 ', text)` over a punctuation class
`punct` and a whitespace class `ws`: each punctuation mark together with
the (possibly empty) whitespace run after it becomes the mark followed by
exactly one space. -/
def punctThenWs (punct ws : Char → Bool) : List Char → List Char
  | [] => []
  | c :: cs =>
    if punct c then c :: ' ' :: punctThenWs punct ws (cs.dropWhile ws)
    else c :: punctThenWs punct ws cs
termination_by l => l.length
decreasing_by
  · have := (List.dropWhile_sublist (l := cs) (p := ws)).length_le
    simp only [List.length_cons]; omega
  · simp

/-- Embeds `re.sub(r'([。！？])\s*', r'\1 ', text)`. -/
def subPunctWs : List Char → List Char := punctThenWs isJaPunct pyIsSpace

/-- Embeds `re.sub(r'([。！？])([^\s])', r'\1 \2', text)`: a punctuation mark
directly followed by a non-whitespace character gets a space inserted;
scanning resumes after the two matched characters. -/
def subPunctTight : List Char → List Char
  | [] => []
  | [c] => [c]
  | c :: d :: cs =>
    if isJaPunct c ∧ ¬ pyIsSpace d then c :: ' ' :: d :: subPunctTight cs
    else c :: subPunctTight (d :: cs)

/-- Python `str.strip()`: remove leading and trailing whitespace. -/
def pyStrip (l : List Char) : List Char :=
  ((l.dropWhile pyIsSpace).reverse.dropWhile pyIsSpace).reverse

/-- The `markdown_to_speech_text` transform of the source, on character lists:
the five regex substitutions followed by `.strip()`. -/
def mdToSpeechList (l : List Char) : List Char :=
  pyStrip (subPunctTight (subPunctWs (subSpaces (subParas (subHeader l)))))

/-- Embeds `markdown_to_speech_text(markdown_text)` of the source (lines 67-87). -/
def markdown_to_speech_text (s : String) : String :=
  ⟨mdToSpeechList s.data⟩

/-! ### `re.sub(r'\n\s*\n', '\n\n', page_text)` (line 62 of the source) -/

/-- Backtracking search for the `\s*` length in `\n\s*\n`: the candidate `j`
succeeds when the character right after the whitespace taken is a newline. -/
def nlBacktrack : Nat → List Char → Option Nat
  | j, rest =>
    if (rest.drop j).head? = some '\n' then some j
    else match j with
      | 0 => none
      | j' + 1 => nlBacktrack j' rest

/-- Match `\n\s*\n` at the head of `l`; returns the remainder after the
match. -/
def nlMatch (l : List Char) : Option (List Char) :=
  match l with
  | c :: rest =>
    if c = '\n' then
      match nlBacktrack (rest.takeWhile pyIsSpace).length rest with
      | none => none
      | some j => some (rest.drop (j + 1))
    else none
  | [] => none

theorem nlMatch_rest_length {l r : List Char} (h : nlMatch l = some r) :
    r.length < l.length := by
  match l with
  | [] => simp [nlMatch] at h
  | c :: rest =>
    simp only [nlMatch] at h
    split at h
    · cases hb : nlBacktrack (rest.takeWhile pyIsSpace).length rest with
      | none => rw [hb] at h; simp at h
      | some j =>
        rw [hb] at h
        simp only [Option.some.injEq] at h
        subst h
        have := (List.drop_sublist (j + 1) rest).length_le
        simp only [List.length_cons]; omega
    · simp at h

/-- Embeds `re.sub(r'\n\s*\n', '\n\n', page_text)`: collapse blank-line runs into
exactly one blank line. -/
def cleanNewlines : List Char → List Char
  | [] => []
  | c :: cs =>
    match nm : nlMatch (c :: cs) with
    | some r => '\n' :: '\n' :: cleanNewlines r
    | none => c :: cleanNewlines cs
termination_by l => l.length
decreasing_by
  · exact nlMatch_rest_length nm
  · simp

/-! ### Document model and `extract_markdown_from_pdf` (lines 14-65)

A PyMuPDF `page.get_text("dict")` result is a list of blocks; a block may
carry a `"lines"` key; a line is a list of spans; a span has a text and a
font size (a float, modelled as a rational). -/

/-- One text span of a PDF page: its text and its font size. -/
structure Span where
  text : String
  size : ℚ

/-- One line of a PDF block: its spans. -/
structure PdfLine where
  spans : List Span

/-- One block of a PDF page: `lines` is present only for text blocks. -/
structure Block where
  lines : Option (List PdfLine)

/-- One page: its `get_text("dict")` blocks. -/
structure PdfPage where
  blocks : List Block

/-- A PDF document: its pages, 0-based and contiguous. -/
structure Doc where
  pages : List PdfPage

/-- Lines 46-56: a span contributes nothing when its stripped text is empty,
a markdown header item when its font size exceeds 14, and the bare text
otherwise. -/
def spanItems (s : Span) : List (List Char) :=
  let t := pyStrip s.text.data
  if t = [] then []
  else if (14 : ℚ) < s.size then [('\n' :: ('#' :: '#' :: ' ' :: t)) ++ ['\n']]
  else [t]

/-- Lines 45-58: the items of one line are its spans' items followed by one
newline item. -/
def lineItems (ln : PdfLine) : List (List Char) :=
  (ln.spans.map spanItems).flatten ++ [['\n']]

/-- Lines 43-58: a block contributes items only when it has `"lines"`. -/
def blockItems (b : Block) : List (List Char) :=
  match b.lines with
  | some ls => (ls.map lineItems).flatten
  | none => []

/-- Lines 60-63: join the page's items with single spaces, collapse blank
lines, and strip. -/
def pageMarkdown (p : PdfPage) : List Char :=
  pyStrip (cleanNewlines (List.intercalate [' ']
    ((p.blocks.map blockItems).flatten)))

/-- Python `range(a, b)`: the ascending list `a, a+1, ..., b-1` (empty when
`b ≤ a`). -/
def pyRange (a b : Nat) : List Nat := List.range' a (b - a)

/-- Lines 32-35: the page indices processed by a run. -/
def pagesToProcess (pageCount : Nat) (numPages : Option Nat) (startPage : Nat) :
    List Nat :=
  match numPages with
  | none => pyRange startPage pageCount
  | some n => pyRange startPage (min (startPage + n) pageCount)

/-- Embeds `extract_markdown_from_pdf(pdf_file, num_pages, start_page)`
(lines 14-65): one markdown string per processed page. -/
def extract_markdown_from_pdf (doc : Doc) (numPages : Option Nat)
    (startPage : Nat) : List String :=
  (pagesToProcess doc.pages.length numPages startPage).map
    (fun p => ⟨pageMarkdown (doc.pages.getD p ⟨[]⟩)⟩)

/-! ### File names and paths (lines 126-168) -/

/-- Embeds `os.path.basename`: the part after the last `/`. -/
def basenameChars (p : List Char) : List Char :=
  (p.reverse.takeWhile (fun c => c ≠ '/')).reverse

/-- The root part of `os.path.splitext` on a basename: cut at the last dot,
unless every character before that dot is itself a dot. -/
def splitextRoot (b : List Char) : List Char :=
  let rs := b.reverse
  let ext := rs.takeWhile (fun c => c ≠ '.')
  if ext.length = rs.length then b
  else
    let pre := (rs.drop (ext.length + 1)).reverse
    if pre.all (fun c => c = '.') then b else pre

/-- Line 127: `os.path.splitext(os.path.basename(pdf_file))[0]` with every
space replaced by an underscore. -/
def docName (pdfFile : String) : String :=
  ⟨(splitextRoot (basenameChars pdfFile.data)).map
    (fun c => if c = ' ' then '_' else c)⟩

/-- Line 148: `os.path.join('tmp_pdf', f'{name}_page_{i+1}')`. -/
def pageFileStem (name : String) (i : Nat) : String :=
  "tmp_pdf/" ++ name ++ "_page_" ++ toString (i + 1)

/-! ### Environment of external outcomes

The run's interactions with PyMuPDF, gTTS, ffmpeg and the file system are
modelled as oracles.  Per-page oracles are indexed by the page's position
`i` within the selected range (the loop variable of line 147). -/

/-- Outcomes of every external interaction of one run. -/
structure Env where
  /-- The opened document (PyMuPDF view of the PDF). -/
  doc : Doc
  /-- Whether `fitz.open` succeeds; when false the body of the `try` raises
  and the handler of line 265 runs. -/
  docOpen : Bool
  /-- `os.getcwd()`, used by `os.path.abspath`. -/
  cwd : String
  /-- Whether `background_music.mp3` exists locally (line 96). -/
  localBgExists : Bool
  /-- Whether the ffmpeg sine-tone synthesis succeeds (lines 110-114). -/
  toneCreateOk : Bool
  /-- Whether the page's target clip file already exists (line 161). -/
  clipExists : Nat → Bool
  /-- Whether the gTTS call for the page succeeds (lines 181-186). -/
  ttsOk : Nat → Bool
  /-- Whether the ffmpeg audio-mix call for the page succeeds
  (lines 199-207): false covers both a non-zero exit and an exception. -/
  mixOk : Nat → Bool
  /-- Whether the ffmpeg clip-render call for the page succeeds
  (lines 225-233). -/
  renderOk : Nat → Bool
  /-- Whether the final ffmpeg concat call succeeds (lines 247-255). -/
  concatOk : Bool
  /-- Whether the output file exists after the concat attempt (line 257). -/
  outputExists : Bool

/-- Embeds `download_background_music(output_path)` (lines 89-118): prefer the
local file, else synthesize a tone, else `None`. -/
def download_background_music (env : Env) (outputPath : String) :
    Option String :=
  if env.localBgExists then some "background_music.mp3"
  else if env.toneCreateOk then some outputPath
  else none

/-- The Japanese placeholder of line 177. -/
def placeholderJa : String := "テキストが見つかりませんでした。"

/-- Lines 175-177: the text actually handed to gTTS for a processed page. -/
def ttsText (md : String) : String :=
  let t := markdown_to_speech_text md
  if t = "" then placeholderJa else t

/-- Everything one iteration of the page loop (lines 147-234) did. -/
structure PageTrace where
  /-- `out_path_mp4` for the page. -/
  clipPath : String
  /-- The `file '...'` line written to `list.txt` (line 159). -/
  manifestLine : String
  /-- Whether the `continue` of line 164 fired (cache hit). -/
  skipped : Bool
  /-- Whether the page image was rendered and saved (lines 167-171). -/
  imageSaved : Bool
  /-- The 0-based document page index passed to `doc.load_page`
  (line 168); `none` when the page was skipped. -/
  loadedDocPage : Option Nat
  /-- The text passed to `gTTS` (line 182); `none` when no TTS call ran. -/
  speechText : Option String
  /-- Whether the narration audio file was written (line 183). -/
  audioSaved : Bool
  /-- Whether the ffmpeg mix invocation ran (line 200). -/
  mixInvoked : Bool
  /-- The audio file path handed to the clip render (line 215); `none`
  when the page was skipped. -/
  audioForClip : Option String
  /-- Whether the ffmpeg clip render invocation ran (line 226). -/
  renderInvoked : Bool
  /-- Whether the clip file exists once the iteration ends. -/
  clipFileExists : Bool
deriving Inhabited

/-- One iteration of the loop of lines 147-234. -/
def processPage (env : Env) (name : String) (startPage i : Nat) (md : String)
    (bgMusic : Option String) : PageTrace :=
  let stem := pageFileStem name i
  let audioPath := stem ++ ".mp3"
  let outPath := stem ++ ".mp4"
  let line := "file '" ++ env.cwd ++ "/" ++ outPath ++ "'\n"
  if env.clipExists i then
    { clipPath := outPath, manifestLine := line, skipped := true,
      imageSaved := false, loadedDocPage := none, speechText := none,
      audioSaved := false, mixInvoked := false, audioForClip := none,
      renderInvoked := false, clipFileExists := true }
  else
    let mixResult : Bool × String :=
      match bgMusic with
      | some _ =>
        if env.mixOk i then (true, stem ++ "_mixed.mp3")
        else (true, audioPath)
      | none => (false, audioPath)
    { clipPath := outPath, manifestLine := line, skipped := false,
      imageSaved := true, loadedDocPage := some (startPage + i),
      speechText := some (ttsText md), audioSaved := env.ttsOk i,
      mixInvoked := mixResult.1, audioForClip := some mixResult.2,
      renderInvoked := true, clipFileExists := env.renderOk i }

/-- Everything one run of `pdf_to_video` did. -/
structure RunResult where
  /-- The process exit status. -/
  exitCode : Nat
  /-- The resolved background track. -/
  bgMusic : Option String
  /-- The traces of the page loop, in loop order. -/
  pages : List PageTrace
  /-- The lines of `list.txt`, in write order. -/
  manifest : List String
  /-- Whether the final concat invocation ran (line 248). -/
  concatInvoked : Bool
  /-- Whether the concat invocation succeeded. -/
  concatSucceeded : Bool
  /-- Whether the final message reported the output as created
  (lines 257-260). -/
  outputReportedCreated : Bool
  /-- Whether `shutil.rmtree(tmp_dir)` ran (line 262). -/
  cleanupDone : Bool
deriving Inhabited

/-- Embeds `pdf_to_video(pdf_file, output_file, num_pages, start_page)`
(lines 120-267). -/
def pdf_to_video (env : Env) (pdfFile outputFile : String)
    (numPages : Option Nat) (startPage : Nat) : RunResult :=
  let name := docName pdfFile
  if env.docOpen then
    let bg := download_background_music env "tmp_pdf/background_music.mp3"
    let mdPages := extract_markdown_from_pdf env.doc numPages startPage
    let pages := (List.range mdPages.length).map (fun i =>
      processPage env name startPage i (mdPages.getD i "") bg)
    { exitCode := 0, bgMusic := bg, pages := pages,
      manifest := pages.map (fun t => t.manifestLine),
      concatInvoked := true, concatSucceeded := env.concatOk,
      outputReportedCreated := env.outputExists, cleanupDone := true }
  else
    { exitCode := 1, bgMusic := none, pages := [], manifest := [],
      concatInvoked := false, concatSucceeded := false,
      outputReportedCreated := false, cleanupDone := false }

/-! ### Concrete documents and environments used by witnesses -/

/-- A one-page document whose page has no text blocks. -/
def doc1 : Doc := ⟨[⟨[]⟩]⟩

/-- A two-page document whose pages have no text blocks. -/
def doc2 : Doc := ⟨[⟨[]⟩, ⟨[]⟩]⟩

/-- A fully successful environment over `doc1`. -/
def baseEnv : Env :=
  { doc := doc1, docOpen := true, cwd := "/work", localBgExists := false,
    toneCreateOk := false, clipExists := fun _ => false,
    ttsOk := fun _ => true, mixOk := fun _ => true, renderOk := fun _ => true,
    concatOk := true, outputExists := true }

/-- The `baseEnv` environment with every page's clip already on disk. -/
def envCache : Env := { baseEnv with clipExists := fun _ => true }

/-- The `baseEnv` environment over the two-page document. -/
def envTwoPages : Env := { baseEnv with doc := doc2 }

/-- The `baseEnv` environment with a failing concatenation and a missing output file. -/
def envConcatFail : Env :=
  { baseEnv with concatOk := false, outputExists := false }

/-- The `baseEnv` environment with a failing clip render for every page (and a failing
concatenation, as feeding a missing clip to the concatenator would cause). -/
def envRenderFail : Env :=
  { baseEnv with
    renderOk := fun _ => false
    concatOk := false
    outputExists := false }

/-! ### Idempotence of `markdown_to_speech_text` (C7)

The output of the transform satisfies four invariants — every whitespace
character is an ASCII space, no two whitespace characters are adjacent,
every punctuation mark is followed by a space unless it ends the text, and
the text has no leading or trailing whitespace — and on any text satisfying
them the transform is the identity. -/

/-- Every whitespace character of `l` is an ASCII space. -/
def allWsSpace (l : List Char) : Prop :=
  ∀ c ∈ l, pyIsSpace c = true → c = ' '

/-- No two adjacent characters of `l` are both whitespace. -/
def noAdjWs (l : List Char) : Prop :=
  List.Chain' (fun a b => ¬(pyIsSpace a = true ∧ pyIsSpace b = true)) l

/-- Every punctuation mark of `l` with a successor is followed by a space. -/
def punctSpaced (l : List Char) : Prop :=
  List.Chain' (fun a b => isJaPunct a = true → b = ' ') l

/-- The list `l` neither starts nor ends with whitespace. -/
def noEdgeWs (l : List Char) : Prop :=
  (∀ c ∈ l.head?, pyIsSpace c = false) ∧ (∀ c ∈ l.getLast?, pyIsSpace c = false)

/-- The single space that `re.sub(r'([。！？])\s*', r'\1 ', ...)` appends
when the text ends with a punctuation mark. -/
def punctExt (punct : Char → Bool) (l : List Char) : List Char :=
  match l.getLast? with
  | some c => if punct c then [' '] else []
  | none => []

/-! ### Helper lemmas about the run -/

theorem getD_map_range {α : Type} [Inhabited α] (f : Nat → α) {N i : Nat}
    (h : i < N) : ((List.range N).map f).getD i default = f i := by
  rw [List.getD_eq_getElem?_getD]
  simp [List.getElem?_map, List.getElem?_range h]

theorem pdf_to_video_pages (env : Env) (pdfFile outputFile : String)
    (numPages : Option Nat) (startPage : Nat) (hopen : env.docOpen = true) :
    (pdf_to_video env pdfFile outputFile numPages startPage).pages =
      (List.range (extract_markdown_from_pdf env.doc numPages startPage).length).map
        (fun i => processPage env (docName pdfFile) startPage i
          ((extract_markdown_from_pdf env.doc numPages startPage).getD i "")
          (download_background_music env "tmp_pdf/background_music.mp3")) := by
  simp [pdf_to_video, hopen]

theorem pdf_to_video_manifest (env : Env) (pdfFile outputFile : String)
    (numPages : Option Nat) (startPage : Nat) (hopen : env.docOpen = true) :
    (pdf_to_video env pdfFile outputFile numPages startPage).manifest =
      (pdf_to_video env pdfFile outputFile numPages startPage).pages.map
        (fun t => t.manifestLine) := by
  simp [pdf_to_video, hopen]

/-- C5: For every document with P pages and every start index s ≥ 0,
extraction with `count = None` processes exactly pages `s..P-1`, and
extraction with a given count n processes exactly pages
`s..min(s+n, P)-1` (clamped to the document's page total), in ascending
page order. -/
theorem c5_extraction_range (doc : Doc) (s n : Nat) :
    (∀ i, i ∈ pagesToProcess doc.pages.length none s ↔
      s ≤ i ∧ i < doc.pages.length) ∧
    (∀ i, i ∈ pagesToProcess doc.pages.length (some n) s ↔
      s ≤ i ∧ i < min (s + n) doc.pages.length) ∧
    (pagesToProcess doc.pages.length none s).Sorted (· < ·) ∧
    (pagesToProcess doc.pages.length (some n) s).Sorted (· < ·) ∧
    (∀ m, extract_markdown_from_pdf doc m s =
      (pagesToProcess doc.pages.length m s).map
        (fun p => ⟨pageMarkdown (doc.pages.getD p ⟨[]⟩)⟩)) := by
  refine ⟨?_, ?_, ?_, ?_, fun m => rfl⟩
  · intro i
    simp only [pagesToProcess, pyRange, List.mem_range'_1]
    omega
  · intro i
    simp only [pagesToProcess, pyRange, List.mem_range'_1]
    omega
  · exact List.pairwise_lt_range' s _
  · exact List.pairwise_lt_range' s _

/-- C4: The process exits with a non-zero status if and only if the document
cannot be opened; for every run in which only per-page stage failures occur
(TTS, mixing or clip rendering fail for some pages), the process exits with
status 0. -/
theorem c4_exit_code (env : Env) (pdfFile outputFile : String)
    (numPages : Option Nat) (startPage : Nat) :
    (pdf_to_video env pdfFile outputFile numPages startPage).exitCode ≠ 0 ↔
      env.docOpen = false := by
  unfold pdf_to_video
  cases h : env.docOpen <;> simp [h]

/-- C2: For every page whose target clip file already exists at the start of
its processing, no pipeline stage executes for that page — no image render,
no speech text, no TTS, no mixing, no clip render — yet the page still
contributes exactly one manifest entry, and the run proceeds to the next
page. -/
theorem c2_cache_hit (env : Env) (pdfFile outputFile : String)
    (numPages : Option Nat) (startPage i : Nat)
    (hopen : env.docOpen = true)
    (hi : i < (extract_markdown_from_pdf env.doc numPages startPage).length)
    (hcache : env.clipExists i = true) :
    ((pdf_to_video env pdfFile outputFile numPages startPage).pages.getD i
        default).skipped = true ∧
    ((pdf_to_video env pdfFile outputFile numPages startPage).pages.getD i
        default).imageSaved = false ∧
    ((pdf_to_video env pdfFile outputFile numPages startPage).pages.getD i
        default).loadedDocPage = none ∧
    ((pdf_to_video env pdfFile outputFile numPages startPage).pages.getD i
        default).speechText = none ∧
    ((pdf_to_video env pdfFile outputFile numPages startPage).pages.getD i
        default).audioSaved = false ∧
    ((pdf_to_video env pdfFile outputFile numPages startPage).pages.getD i
        default).mixInvoked = false ∧
    ((pdf_to_video env pdfFile outputFile numPages startPage).pages.getD i
        default).renderInvoked = false ∧
    (pdf_to_video env pdfFile outputFile numPages startPage).pages.length =
      (extract_markdown_from_pdf env.doc numPages startPage).length ∧
    (pdf_to_video env pdfFile outputFile numPages startPage).manifest.length =
      (pdf_to_video env pdfFile outputFile numPages startPage).pages.length ∧
    (pdf_to_video env pdfFile outputFile numPages startPage).manifest.getD i ""
      = "file '" ++ env.cwd ++ "/" ++ pageFileStem (docName pdfFile) i ++
        ".mp4" ++ "'\n" := by
  refine ⟨?_, ?_, ?_, ?_, ?_, ?_, ?_, ?_, ?_, ?_⟩ <;>
    simp [pdf_to_video, hopen, processPage, hcache, List.map_map,
      List.getD_eq_getElem?_getD, List.getElem?_map, List.getElem?_range, hi,
      Function.comp, String.append_assoc]

/-- Witness for C2: a concrete cache-hit run over a one-page document. -/
theorem c2_cache_hit_witness :
    envCache.docOpen = true ∧
    0 < (extract_markdown_from_pdf envCache.doc none 0).length ∧
    envCache.clipExists 0 = true ∧
    (((pdf_to_video envCache "a.pdf" "out.mp4" none 0).pages.getD 0
        default).skipped = true ∧
    ((pdf_to_video envCache "a.pdf" "out.mp4" none 0).pages.getD 0
        default).imageSaved = false ∧
    ((pdf_to_video envCache "a.pdf" "out.mp4" none 0).pages.getD 0
        default).loadedDocPage = none ∧
    ((pdf_to_video envCache "a.pdf" "out.mp4" none 0).pages.getD 0
        default).speechText = none ∧
    ((pdf_to_video envCache "a.pdf" "out.mp4" none 0).pages.getD 0
        default).audioSaved = false ∧
    ((pdf_to_video envCache "a.pdf" "out.mp4" none 0).pages.getD 0
        default).mixInvoked = false ∧
    ((pdf_to_video envCache "a.pdf" "out.mp4" none 0).pages.getD 0
        default).renderInvoked = false ∧
    (pdf_to_video envCache "a.pdf" "out.mp4" none 0).pages.length =
      (extract_markdown_from_pdf envCache.doc none 0).length ∧
    (pdf_to_video envCache "a.pdf" "out.mp4" none 0).manifest.length =
      (pdf_to_video envCache "a.pdf" "out.mp4" none 0).pages.length ∧
    (pdf_to_video envCache "a.pdf" "out.mp4" none 0).manifest.getD 0 ""
      = "file '" ++ envCache.cwd ++ "/" ++ pageFileStem (docName "a.pdf") 0 ++
        ".mp4" ++ "'\n") :=
  ⟨rfl, by decide, rfl,
    c2_cache_hit envCache "a.pdf" "out.mp4" none 0 0 rfl (by decide) rfl⟩

/-- C6: The TTS synthesizer is never invoked with empty text: for every
processed page, if the speech-ready text from the page's extracted text is
empty, the Japanese "no text found" placeholder is substituted before
synthesis, so synthesis still runs for that page with non-empty input. -/
theorem c6_tts_never_empty (env : Env) (pdfFile outputFile : String)
    (numPages : Option Nat) (startPage i : Nat)
    (hopen : env.docOpen = true)
    (hi : i < (extract_markdown_from_pdf env.doc numPages startPage).length)
    (hmiss : env.clipExists i = false) :
    ((pdf_to_video env pdfFile outputFile numPages startPage).pages.getD i
        default).speechText =
      some (ttsText
        ((extract_markdown_from_pdf env.doc numPages startPage).getD i "")) ∧
    (∀ md : String, ttsText md ≠ "") ∧
    (∀ md : String, markdown_to_speech_text md = "" →
      ttsText md = placeholderJa) := by
  refine ⟨?_, ?_, ?_⟩
  · simp [pdf_to_video, hopen, processPage, hmiss,
      List.getD_eq_getElem?_getD, List.getElem?_map, List.getElem?_range, hi]
  · intro md
    by_cases h : markdown_to_speech_text md = "" <;>
      simp [ttsText, h, placeholderJa]
  · intro md h
    simp [ttsText, h]

/-- Witness for C6: a concrete run over a one-page document with no text
(the placeholder is what reaches TTS). -/
theorem c6_tts_never_empty_witness :
    baseEnv.docOpen = true ∧
    0 < (extract_markdown_from_pdf baseEnv.doc none 0).length ∧
    baseEnv.clipExists 0 = false ∧
    (((pdf_to_video baseEnv "a.pdf" "out.mp4" none 0).pages.getD 0
        default).speechText =
      some (ttsText ((extract_markdown_from_pdf baseEnv.doc none 0).getD 0 "")) ∧
    (∀ md : String, ttsText md ≠ "") ∧
    (∀ md : String, markdown_to_speech_text md = "" →
      ttsText md = placeholderJa)) :=
  ⟨rfl, by decide, rfl,
    c6_tts_never_empty baseEnv "a.pdf" "out.mp4" none 0 0 rfl (by decide) rfl⟩

/-- C8: If the background track resolves to "none", the audio used for clip
rendering is identically the page's narration clip (same file, no mixing
invoked); if mixing is attempted but fails, the page falls back to its
narration-only audio without the page itself failing. -/
theorem c8_mix_fallback (env : Env) (pdfFile outputFile : String)
    (numPages : Option Nat) (startPage i : Nat)
    (hopen : env.docOpen = true)
    (hi : i < (extract_markdown_from_pdf env.doc numPages startPage).length)
    (hmiss : env.clipExists i = false) :
    ((pdf_to_video env pdfFile outputFile numPages startPage).bgMusic = none →
      ((pdf_to_video env pdfFile outputFile numPages startPage).pages.getD i
          default).mixInvoked = false ∧
      ((pdf_to_video env pdfFile outputFile numPages startPage).pages.getD i
          default).audioForClip =
        some (pageFileStem (docName pdfFile) i ++ ".mp3")) ∧
    (∀ b : String,
      (pdf_to_video env pdfFile outputFile numPages startPage).bgMusic =
        some b →
      env.mixOk i = false →
      ((pdf_to_video env pdfFile outputFile numPages startPage).pages.getD i
          default).mixInvoked = true ∧
      ((pdf_to_video env pdfFile outputFile numPages startPage).pages.getD i
          default).audioForClip =
        some (pageFileStem (docName pdfFile) i ++ ".mp3") ∧
      ((pdf_to_video env pdfFile outputFile numPages startPage).pages.getD i
          default).renderInvoked = true) := by
  constructor
  · intro hbg
    simp only [pdf_to_video, hopen, if_true] at hbg ⊢
    refine ⟨?_, ?_⟩ <;>
      simp [processPage, hmiss, hbg, List.getD_eq_getElem?_getD,
        List.getElem?_map, List.getElem?_range, hi]
  · intro b hbg hmix
    simp only [pdf_to_video, hopen, if_true] at hbg ⊢
    refine ⟨?_, ?_, ?_⟩ <;>
      simp [processPage, hmiss, hbg, hmix, List.getD_eq_getElem?_getD,
        List.getElem?_map, List.getElem?_range, hi]

/-- Witness for C8: a concrete run in which the background track resolves to
"none" (no local file and the tone synthesis fails). -/
theorem c8_mix_fallback_witness :
    baseEnv.docOpen = true ∧
    0 < (extract_markdown_from_pdf baseEnv.doc none 0).length ∧
    baseEnv.clipExists 0 = false ∧
    (((pdf_to_video baseEnv "a.pdf" "out.mp4" none 0).bgMusic = none →
      ((pdf_to_video baseEnv "a.pdf" "out.mp4" none 0).pages.getD 0
          default).mixInvoked = false ∧
      ((pdf_to_video baseEnv "a.pdf" "out.mp4" none 0).pages.getD 0
          default).audioForClip =
        some (pageFileStem (docName "a.pdf") 0 ++ ".mp3")) ∧
    (∀ b : String,
      (pdf_to_video baseEnv "a.pdf" "out.mp4" none 0).bgMusic = some b →
      baseEnv.mixOk 0 = false →
      ((pdf_to_video baseEnv "a.pdf" "out.mp4" none 0).pages.getD 0
          default).mixInvoked = true ∧
      ((pdf_to_video baseEnv "a.pdf" "out.mp4" none 0).pages.getD 0
          default).audioForClip =
        some (pageFileStem (docName "a.pdf") 0 ++ ".mp3") ∧
      ((pdf_to_video baseEnv "a.pdf" "out.mp4" none 0).pages.getD 0
          default).renderInvoked = true)) :=
  ⟨rfl, by decide, rfl,
    c8_mix_fallback baseEnv "a.pdf" "out.mp4" none 0 0 rfl (by decide) rfl⟩

/-- C9: Per-page artifact paths are derived only from the document's base
name (spaces replaced by underscores) and the 1-based position within the
selected range — not from the absolute page index — so two runs over the
same document with different start indices give the same clip path to
different document pages. -/
theorem c9_paths_ignore_start (env : Env) (pdfFile outputFile : String)
    (numPages1 numPages2 : Option Nat) (s1 s2 i : Nat)
    (hopen : env.docOpen = true)
    (h1 : i < (extract_markdown_from_pdf env.doc numPages1 s1).length)
    (h2 : i < (extract_markdown_from_pdf env.doc numPages2 s2).length)
    (hmiss : env.clipExists i = false) :
    ((pdf_to_video env pdfFile outputFile numPages1 s1).pages.getD i
        default).clipPath =
      ((pdf_to_video env pdfFile outputFile numPages2 s2).pages.getD i
        default).clipPath ∧
    ((pdf_to_video env pdfFile outputFile numPages1 s1).pages.getD i
        default).clipPath = pageFileStem (docName pdfFile) i ++ ".mp4" ∧
    ((pdf_to_video env pdfFile outputFile numPages1 s1).pages.getD i
        default).loadedDocPage = some (s1 + i) ∧
    ((pdf_to_video env pdfFile outputFile numPages2 s2).pages.getD i
        default).loadedDocPage = some (s2 + i) ∧
    (s1 ≠ s2 →
      ((pdf_to_video env pdfFile outputFile numPages1 s1).pages.getD i
          default).loadedDocPage ≠
        ((pdf_to_video env pdfFile outputFile numPages2 s2).pages.getD i
          default).loadedDocPage) := by
  refine ⟨?_, ?_, ?_, ?_, ?_⟩
  · simp [pdf_to_video, hopen, processPage, hmiss,
      List.getD_eq_getElem?_getD, List.getElem?_map, List.getElem?_range,
      h1, h2]
  · simp [pdf_to_video, hopen, processPage, hmiss,
      List.getD_eq_getElem?_getD, List.getElem?_map, List.getElem?_range, h1]
  · simp [pdf_to_video, hopen, processPage, hmiss,
      List.getD_eq_getElem?_getD, List.getElem?_map, List.getElem?_range, h1]
  · simp [pdf_to_video, hopen, processPage, hmiss,
      List.getD_eq_getElem?_getD, List.getElem?_map, List.getElem?_range, h2]
  · intro hne
    simp [pdf_to_video, hopen, processPage, hmiss,
      List.getD_eq_getElem?_getD, List.getElem?_map, List.getElem?_range,
      h1, h2]
    omega

/-- Witness for C9: over a two-page document, the runs starting at page 0
and at page 1 use the same clip path for range position 0 while loading
different document pages. -/
theorem c9_paths_ignore_start_witness :
    envTwoPages.docOpen = true ∧
    0 < (extract_markdown_from_pdf envTwoPages.doc none 0).length ∧
    0 < (extract_markdown_from_pdf envTwoPages.doc none 1).length ∧
    envTwoPages.clipExists 0 = false ∧
    (((pdf_to_video envTwoPages "a.pdf" "out.mp4" none 0).pages.getD 0
        default).clipPath =
      ((pdf_to_video envTwoPages "a.pdf" "out.mp4" none 1).pages.getD 0
        default).clipPath ∧
    ((pdf_to_video envTwoPages "a.pdf" "out.mp4" none 0).pages.getD 0
        default).clipPath = pageFileStem (docName "a.pdf") 0 ++ ".mp4" ∧
    ((pdf_to_video envTwoPages "a.pdf" "out.mp4" none 0).pages.getD 0
        default).loadedDocPage = some (0 + 0) ∧
    ((pdf_to_video envTwoPages "a.pdf" "out.mp4" none 1).pages.getD 0
        default).loadedDocPage = some (1 + 0) ∧
    ((0 : Nat) ≠ 1 →
      ((pdf_to_video envTwoPages "a.pdf" "out.mp4" none 0).pages.getD 0
          default).loadedDocPage ≠
        ((pdf_to_video envTwoPages "a.pdf" "out.mp4" none 1).pages.getD 0
          default).loadedDocPage)) :=
  ⟨rfl, by decide, by decide, rfl,
    c9_paths_ignore_start envTwoPages "a.pdf" "out.mp4" none none 0 1 0 rfl
      (by decide) (by decide) rfl⟩

/-- C10: On every run that reaches the concatenation step, the working
directory is removed after concatenation even when concatenation failed and
the final output file does not exist — no per-page clip survives for a
resumed run once concatenation has been attempted. -/
theorem c10_cleanup_always (env : Env) (pdfFile outputFile : String)
    (numPages : Option Nat) (startPage : Nat)
    (hopen : env.docOpen = true) :
    (pdf_to_video env pdfFile outputFile numPages startPage).concatInvoked =
      true ∧
    (pdf_to_video env pdfFile outputFile numPages startPage).cleanupDone =
      true := by
  constructor <;> simp [pdf_to_video, hopen]

/-- Witness for C10: the cleanup runs on a concrete run whose concatenation
fails and whose output file is missing. -/
theorem c10_cleanup_always_witness :
    envConcatFail.docOpen = true ∧
    envConcatFail.concatOk = false ∧
    envConcatFail.outputExists = false ∧
    ((pdf_to_video envConcatFail "a.pdf" "out.mp4" none 0).concatInvoked =
      true ∧
    (pdf_to_video envConcatFail "a.pdf" "out.mp4" none 0).cleanupDone =
      true) :=
  ⟨rfl, rfl, rfl,
    c10_cleanup_always envConcatFail "a.pdf" "out.mp4" none 0 rfl⟩

/-- C1 (code bug): on a concrete one-page run whose clip render fails, the
manifest line for that page is written anyway — the source writes the
`list.txt` line (line 159) before the cache check and before the render, so
the manifest does not register only successfully rendered clips. -/
theorem c1_manifest_records_failed_render :
    (pdf_to_video envRenderFail "doc.pdf" "out.mp4" none 0).manifest =
      ["file '/work/tmp_pdf/doc_page_1.mp4'\n"] ∧
    ((pdf_to_video envRenderFail "doc.pdf" "out.mp4" none 0).pages.getD 0
        default).renderInvoked = true ∧
    ((pdf_to_video envRenderFail "doc.pdf" "out.mp4" none 0).pages.getD 0
        default).clipFileExists = false := by
  refine ⟨?_, ?_, ?_⟩ <;> decide

/-- C3 counterexample: on a concrete run whose final concatenation fails,
the process still exits with status 0 — the failure is not surfaced as a
non-zero exit, contradicting the claim that a concatenation failure is
fatal for the run. -/
theorem c3_counterexample :
    (pdf_to_video envConcatFail "doc.pdf" "out.mp4" none 0).concatSucceeded =
      false ∧
    (pdf_to_video envConcatFail "doc.pdf" "out.mp4" none 0).exitCode = 0 := by
  refine ⟨?_, ?_⟩ <;> decide

/-- C3 (amended): a concatenation failure is not fatal: the run still exits
with status 0; it reports the failure only through messages — in particular
it reports the output as missing when the output file does not exist — and
it still cleans up the working directory. -/
theorem c3_concat_failure_not_fatal (env : Env)
    (pdfFile outputFile : String) (numPages : Option Nat) (startPage : Nat)
    (hopen : env.docOpen = true) (hfail : env.concatOk = false) :
    (pdf_to_video env pdfFile outputFile numPages startPage).exitCode = 0 ∧
    (pdf_to_video env pdfFile outputFile numPages startPage).concatSucceeded =
      false ∧
    (env.outputExists = false →
      (pdf_to_video env pdfFile outputFile numPages
        startPage).outputReportedCreated = false) ∧
    (pdf_to_video env pdfFile outputFile numPages startPage).cleanupDone =
      true := by
  refine ⟨?_, ?_, fun h => ?_, ?_⟩ <;> simp [pdf_to_video, hopen, hfail]
  exact h

/-- Witness for the amended C3: a concrete failing concatenation. -/
theorem c3_concat_failure_not_fatal_witness :
    envConcatFail.docOpen = true ∧
    envConcatFail.concatOk = false ∧
    ((pdf_to_video envConcatFail "a.pdf" "out.mp4" none 0).exitCode = 0 ∧
    (pdf_to_video envConcatFail "a.pdf" "out.mp4" none 0).concatSucceeded =
      false ∧
    (envConcatFail.outputExists = false →
      (pdf_to_video envConcatFail "a.pdf" "out.mp4" none
        0).outputReportedCreated = false) ∧
    (pdf_to_video envConcatFail "a.pdf" "out.mp4" none 0).cleanupDone =
      true) :=
  ⟨rfl, rfl,
    c3_concat_failure_not_fatal envConcatFail "a.pdf" "out.mp4" none 0 rfl
      rfl⟩

theorem jaPunct_not_ws {c : Char} (h : isJaPunct c = true) :
    pyIsSpace c = false := by
  simp only [isJaPunct, Bool.or_eq_true, decide_eq_true_eq] at h
  rcases h with (h | h) | h <;> subst h <;> decide

theorem head?_dropWhile_not (p : Char → Bool) :
    ∀ (l : List Char) {c : Char}, (l.dropWhile p).head? = some c → p c = false
  | [], c => by simp
  | a :: l, c => by
    rw [List.dropWhile_cons]
    split
    · exact head?_dropWhile_not p l
    · intro h
      simp only [List.head?_cons, Option.some.injEq] at h
      subst h
      simp_all

theorem dropWhile_head_not {p : Char → Bool} {l : List Char}
    (h : ∀ c ∈ l.head?, p c = false) : l.dropWhile p = l := by
  cases l with
  | nil => rfl
  | cons a l =>
    rw [List.dropWhile_cons]
    have := h a (by simp)
    simp [this]

theorem collapseWs_nil (p : Char → Bool) : collapseWs p [] = [] := by
  rw [collapseWs.eq_def]

theorem collapseWs_cons (p : Char → Bool) (c : Char) (cs : List Char) :
    collapseWs p (c :: cs) =
      if p c then ' ' :: collapseWs p (cs.dropWhile p)
      else c :: collapseWs p cs := by
  rw [collapseWs.eq_def]

theorem mem_collapseWs (p : Char → Bool) :
    ∀ l : List Char, ∀ c ∈ collapseWs p l,
      c = ' ' ∨ (c ∈ l ∧ p c = false)
  | [] => by simp [collapseWs_nil]
  | a :: l => by
    rw [collapseWs_cons]
    split
    · intro c h
      rcases List.mem_cons.mp h with h | h
      · exact Or.inl h
      · rcases mem_collapseWs p _ c h with h | ⟨h1, h2⟩
        · exact Or.inl h
        · exact Or.inr ⟨List.mem_cons_of_mem a
            ((List.dropWhile_sublist _).subset h1), h2⟩
    · intro c h
      rcases List.mem_cons.mp h with h | h
      · subst h; right; simp_all
      · rcases mem_collapseWs p _ c h with h | ⟨h1, h2⟩
        · exact Or.inl h
        · exact Or.inr ⟨List.mem_cons_of_mem a h1, h2⟩
termination_by l => l.length
decreasing_by
  all_goals
    (try simp only [List.length_cons]) <;>
    (try have h9 : (List.dropWhile p l).length ≤ l.length :=
      List.Sublist.length_le (List.dropWhile_sublist _)) <;>
    omega

theorem collapseWs_head? (p : Char → Bool) (l : List Char) :
    (collapseWs p l).head? =
      l.head?.map (fun c => if p c then ' ' else c) := by
  cases l with
  | nil => simp [collapseWs_nil]
  | cons c cs =>
    rw [collapseWs_cons]
    split <;> simp_all

theorem collapseWs_chain (p : Char → Bool) :
    ∀ l : List Char,
      List.Chain' (fun a b => ¬(p a = true ∧ p b = true)) (collapseWs p l)
  | [] => by simp [collapseWs_nil]
  | a :: l => by
    rw [collapseWs_cons]
    split
    · rw [List.chain'_cons']
      refine ⟨?_, collapseWs_chain p (l.dropWhile p)⟩
      intro y hy
      rw [collapseWs_head? p] at hy
      cases hh : (l.dropWhile p).head? with
      | none => rw [hh] at hy; simp at hy
      | some h =>
        have hnp : p h = false := head?_dropWhile_not p l hh
        rw [hh] at hy
        simp only [Option.map_some', Option.mem_def, Option.some.injEq] at hy
        subst hy
        simp [hnp]
    · rw [List.chain'_cons']
      refine ⟨?_, collapseWs_chain p l⟩
      intro y hy
      intro hc
      simp_all
termination_by l => l.length
decreasing_by
  all_goals
    (try simp only [List.length_cons]) <;>
    (try have h9 : (List.dropWhile p l).length ≤ l.length :=
      List.Sublist.length_le (List.dropWhile_sublist _)) <;>
    omega

theorem punctThenWs_nil (punct ws : Char → Bool) :
    punctThenWs punct ws [] = [] := by
  rw [punctThenWs.eq_def]

theorem punctThenWs_cons (punct ws : Char → Bool) (c : Char) (cs : List Char) :
    punctThenWs punct ws (c :: cs) =
      if punct c then c :: ' ' :: punctThenWs punct ws (cs.dropWhile ws)
      else c :: punctThenWs punct ws cs := by
  rw [punctThenWs.eq_def]

theorem punctThenWs_head? (punct ws : Char → Bool) (l : List Char) :
    (punctThenWs punct ws l).head? = l.head? := by
  cases l with
  | nil => simp [punctThenWs_nil]
  | cons c cs =>
    rw [punctThenWs_cons]
    split <;> simp

theorem mem_punctThenWs (punct ws : Char → Bool) :
    ∀ l : List Char, ∀ c ∈ punctThenWs punct ws l, c = ' ' ∨ c ∈ l
  | [] => by simp [punctThenWs_nil]
  | a :: l => by
    rw [punctThenWs_cons]
    split
    · intro c h
      rcases List.mem_cons.mp h with h | h
      · subst h; right; simp
      rcases List.mem_cons.mp h with h | h
      · exact Or.inl h
      · rcases mem_punctThenWs punct ws _ c h with h | h
        · exact Or.inl h
        · exact Or.inr (List.mem_cons_of_mem a
            ((List.dropWhile_sublist _).subset h))
    · intro c h
      rcases List.mem_cons.mp h with h | h
      · subst h; right; simp
      · rcases mem_punctThenWs punct ws _ c h with h | h
        · exact Or.inl h
        · exact Or.inr (List.mem_cons_of_mem a h)
termination_by l => l.length
decreasing_by
  all_goals
    (try simp only [List.length_cons]) <;>
    (try have h9 : (List.dropWhile ws l).length ≤ l.length :=
      List.Sublist.length_le (List.dropWhile_sublist _)) <;>
    omega

theorem punctThenWs_chainWs (punct ws : Char → Bool)
    (hpw : ∀ c, punct c = true → ws c = false) :
    ∀ l : List Char,
      List.Chain' (fun a b => ¬(ws a = true ∧ ws b = true)) l →
      List.Chain' (fun a b => ¬(ws a = true ∧ ws b = true))
        (punctThenWs punct ws l)
  | [] => by simp [punctThenWs_nil]
  | a :: l => fun hch => by
    rw [punctThenWs_cons]
    have htail : List.Chain' (fun a b => ¬(ws a = true ∧ ws b = true)) l :=
      hch.tail
    split
    · rename_i hpa
      rw [List.chain'_cons']
      constructor
      · intro y hy
        simp only [List.head?_cons, Option.mem_def, Option.some.injEq] at hy
        subst hy
        rw [hpw a hpa]
        simp
      rw [List.chain'_cons']
      constructor
      · intro y hy
        rw [punctThenWs_head? punct ws] at hy
        have := head?_dropWhile_not ws (l := l) hy
        simp [this]
      · exact punctThenWs_chainWs punct ws hpw (l.dropWhile ws)
          (htail.suffix (List.dropWhile_suffix _))
    · rw [List.chain'_cons']
      constructor
      · intro y hy
        rw [punctThenWs_head? punct ws] at hy
        exact (List.chain'_cons'.mp hch).1 y hy
      · exact punctThenWs_chainWs punct ws hpw l htail
termination_by l => l.length
decreasing_by
  all_goals
    (try simp only [List.length_cons]) <;>
    (try have h9 : (List.dropWhile ws l).length ≤ l.length :=
      List.Sublist.length_le (List.dropWhile_sublist _)) <;>
    omega

theorem punctThenWs_chainPunct (punct ws : Char → Bool)
    (hps : punct ' ' = false) :
    ∀ l : List Char,
      List.Chain' (fun a b => punct a = true → b = ' ')
        (punctThenWs punct ws l)
  | [] => by simp [punctThenWs_nil]
  | a :: l => by
    rw [punctThenWs_cons]
    split
    · rw [List.chain'_cons']
      constructor
      · intro y hy
        simp only [List.head?_cons, Option.mem_def, Option.some.injEq] at hy
        subst hy
        intro
        rfl
      rw [List.chain'_cons']
      constructor
      · intro y hy hsp
        rw [hps] at hsp
        cases hsp
      · exact punctThenWs_chainPunct punct ws hps (l.dropWhile ws)
    · rename_i hpa
      rw [List.chain'_cons']
      constructor
      · intro y hy hp
        simp [hp] at hpa
      · exact punctThenWs_chainPunct punct ws hps l
termination_by l => l.length
decreasing_by
  all_goals
    (try simp only [List.length_cons]) <;>
    (try have h9 : (List.dropWhile ws l).length ≤ l.length :=
      List.Sublist.length_le (List.dropWhile_sublist _)) <;>
    omega

theorem subPunctTight_of_punctSpaced :
    ∀ l : List Char, punctSpaced l → subPunctTight l = l
  | [] => fun _ => rfl
  | [c] => fun _ => rfl
  | c :: d :: cs => fun h => by
    have hrel : isJaPunct c = true → d = ' ' := (List.chain'_cons.mp h).1
    have htail : punctSpaced (d :: cs) := (List.chain'_cons.mp h).2
    show (if isJaPunct c ∧ ¬ pyIsSpace d then c :: ' ' :: d :: subPunctTight cs
      else c :: subPunctTight (d :: cs)) = c :: d :: cs
    rw [if_neg, subPunctTight_of_punctSpaced (d :: cs) htail]
    rintro ⟨h1, h2⟩
    rw [hrel h1] at h2
    exact h2 (by decide)

theorem collapseWs_id (p : Char → Bool) :
    ∀ l : List Char, (∀ c ∈ l, p c = true → c = ' ') →
      List.Chain' (fun a b => ¬(p a = true ∧ p b = true)) l →
      collapseWs p l = l
  | [] => fun _ _ => by simp [collapseWs_nil]
  | a :: l => fun hall hch => by
    rw [collapseWs_cons]
    split
    · rename_i hpa
      have ha : a = ' ' := hall a (by simp) hpa
      have hdw : l.dropWhile p = l := by
        apply dropWhile_head_not
        intro c hc
        have := (List.chain'_cons'.mp hch).1 c hc
        rcases hq : p c with _ | _
        · rfl
        · exact absurd ⟨hpa, hq⟩ this
      rw [hdw, ← ha,
        collapseWs_id p l (fun c hc => hall c (List.mem_cons_of_mem a hc))
          hch.tail]
    · rw [collapseWs_id p l (fun c hc => hall c (List.mem_cons_of_mem a hc))
        hch.tail]
termination_by l => l.length
decreasing_by
  all_goals simp

theorem punctThenWs_spaced (punct ws : Char → Bool)
    (hsp : ws ' ' = true) (hps : punct ' ' = false) :
    ∀ l : List Char,
      List.Chain' (fun a b => ¬(ws a = true ∧ ws b = true)) l →
      List.Chain' (fun a b => punct a = true → b = ' ') l →
      punctThenWs punct ws l = l ++ punctExt punct l
  | [] => fun _ _ => by simp [punctThenWs_nil, punctExt]
  | [c] => fun _ _ => by
    rw [punctThenWs_cons]
    simp only [punctExt, List.getLast?_singleton]
    split
    · rename_i hc
      simp [punctThenWs_nil, hc]
    · rename_i hc
      simp only [Bool.not_eq_true] at hc
      simp [punctThenWs_nil, hc]
  | c :: d :: cs => fun hw hp => by
    rw [punctThenWs_cons]
    have hpcd : punct c = true → d = ' ' := (List.chain'_cons.mp hp).1
    split
    · rename_i hpc
      have hd : d = ' ' := hpcd hpc
      subst hd
      have hdw : (' ' :: cs).dropWhile ws = cs.dropWhile ws := by
        rw [List.dropWhile_cons, if_pos hsp]
      have hcs : cs.dropWhile ws = cs := by
        apply dropWhile_head_not
        intro e he
        have := (List.chain'_cons'.mp (List.chain'_cons.mp hw).2).1 e he
        rcases hq : ws e with _ | _
        · rfl
        · exact absurd ⟨hsp, hq⟩ this
      rw [hdw, hcs,
        punctThenWs_spaced punct ws hsp hps cs
          (List.chain'_cons.mp hw).2.tail (List.chain'_cons.mp hp).2.tail]
      cases cs with
      | nil => simp [punctExt, hps]
      | cons e t =>
        simp only [punctExt, List.getLast?_cons_cons, List.cons_append]
    · rw [punctThenWs_spaced punct ws hsp hps (d :: cs)
        (List.chain'_cons.mp hw).2 (List.chain'_cons.mp hp).2]
      simp only [punctExt, List.getLast?_cons_cons, List.cons_append]
termination_by l => l.length
decreasing_by
  all_goals simp <;> omega

theorem pyStrip_isInfix (l : List Char) : pyStrip l <:+: l := by
  unfold pyStrip
  have s1 : l.dropWhile pyIsSpace <:+ l := List.dropWhile_suffix _
  have s2 : (l.dropWhile pyIsSpace).reverse.dropWhile pyIsSpace <:+
      (l.dropWhile pyIsSpace).reverse := List.dropWhile_suffix _
  have s3 : ((l.dropWhile pyIsSpace).reverse.dropWhile pyIsSpace).reverse <+:
      l.dropWhile pyIsSpace := by
    rw [← List.reverse_suffix]
    simpa using s2
  exact s3.isInfix.trans s1.isInfix

theorem pyStrip_eq_self {l : List Char}
    (h1 : ∀ c ∈ l.head?, pyIsSpace c = false)
    (h2 : ∀ c ∈ l.getLast?, pyIsSpace c = false) : pyStrip l = l := by
  unfold pyStrip
  rw [dropWhile_head_not h1]
  rw [dropWhile_head_not (by rw [List.head?_reverse]; exact h2)]
  exact List.reverse_reverse l

theorem pyStrip_append_space {l : List Char} (hne : l ≠ [])
    (h1 : ∀ c ∈ l.head?, pyIsSpace c = false)
    (h2 : ∀ c ∈ l.getLast?, pyIsSpace c = false) :
    pyStrip (l ++ [' ']) = l := by
  unfold pyStrip
  have hd : (l ++ [' ']).dropWhile pyIsSpace = l ++ [' '] := by
    apply dropWhile_head_not
    intro c hc
    cases l with
    | nil => exact absurd rfl hne
    | cons a t =>
      simp only [List.cons_append, List.head?_cons, Option.mem_def,
        Option.some.injEq] at hc
      subst hc
      exact h1 _ (by simp)
  rw [hd, List.reverse_append]
  show (((' ' : Char) :: l.reverse).dropWhile pyIsSpace).reverse = l
  rw [List.dropWhile_cons, if_pos (by decide)]
  rw [dropWhile_head_not (by rw [List.head?_reverse]; exact h2)]
  exact List.reverse_reverse l

theorem pyStrip_noEdgeWs (l : List Char) : noEdgeWs (pyStrip l) := by
  constructor
  · intro c hc
    unfold pyStrip at hc
    rw [List.head?_reverse] at hc
    set m := (l.dropWhile pyIsSpace).reverse.dropWhile pyIsSpace with hm
    have hmne : m ≠ [] := by
      intro he
      rw [he] at hc
      simp at hc
    obtain ⟨t, ht⟩ := List.dropWhile_suffix (l := (l.dropWhile pyIsSpace).reverse)
      (p := pyIsSpace)
    rw [← hm] at ht
    have hgl : (l.dropWhile pyIsSpace).reverse.getLast? = m.getLast? := by
      rw [← ht]
      exact List.getLast?_append_of_ne_nil t hmne
    rw [← hgl, List.getLast?_reverse] at hc
    exact head?_dropWhile_not pyIsSpace l hc
  · intro c hc
    unfold pyStrip at hc
    rw [List.getLast?_reverse] at hc
    exact head?_dropWhile_not pyIsSpace _ hc

theorem hdrBacktrack_newline :
    ∀ (j : Nat) (rest : List Char) (j' : Nat),
      hdrBacktrack j rest = some j' → '\n' ∈ rest
  | 0, rest, j' => by
    rw [hdrBacktrack]
    split
    · rename_i h
      exact fun _ => (List.drop_subset _ _) h
    · simp
  | j + 1, rest, j' => by
    rw [hdrBacktrack]
    split
    · rename_i h
      exact fun _ => (List.drop_subset _ _) h
    · exact hdrBacktrack_newline j rest j'

theorem hdrMatch_newline {l : List Char} {x : List Char × List Char}
    (h : hdrMatch l = some x) : '\n' ∈ l := by
  match l with
  | [] => simp [hdrMatch] at h
  | [c] => simp [hdrMatch] at h
  | c :: d :: rest =>
    simp only [hdrMatch] at h
    split at h
    · cases hb : hdrBacktrack (rest.takeWhile pyIsSpace).length rest with
      | none => rw [hb] at h; simp at h
      | some j =>
        have := hdrBacktrack_newline _ rest j hb
        exact List.mem_cons_of_mem c (List.mem_cons_of_mem d this)
    · simp at h

theorem subHeader_id : ∀ l : List Char, '\n' ∉ l → subHeader l = l
  | [] => fun _ => by rw [subHeader.eq_def]
  | c :: cs => fun h => by
    rw [subHeader.eq_def]
    show (match hm : hdrMatch (c :: cs) with
      | some (g, r) => g ++ '。' :: subHeader r
      | none => c :: subHeader cs) = c :: cs
    split
    · rename_i g r hm
      exact absurd (hdrMatch_newline hm) h
    · rw [subHeader_id cs (fun hc => h (List.mem_cons_of_mem c hc))]
termination_by l => l.length
decreasing_by
  all_goals simp

theorem subParas_id : ∀ l : List Char, '\n' ∉ l → subParas l = l := by
  intro l
  induction l with
  | nil => intro _; rfl
  | cons c cs ih =>
    intro h
    have hc : c ≠ '\n' := fun he => h (he ▸ List.mem_cons_self c cs)
    have hcs : '\n' ∉ cs := fun hm => h (List.mem_cons_of_mem c hm)
    rw [subParas.eq_def]
    split
    · rename_i heq
      exact absurd rfl (by injection heq with h1 _; exact h1 ▸ hc)
    · rename_i heq
      injection heq with h1 h2
      rw [← h1, ← h2, ih hcs]
    · rename_i heq
      cases heq

theorem mdToSpeechList_inv (x : List Char) :
    allWsSpace (mdToSpeechList x) ∧ noAdjWs (mdToSpeechList x) ∧
    punctSpaced (mdToSpeechList x) ∧ noEdgeWs (mdToSpeechList x) := by
  unfold mdToSpeechList
  have hA1a : ∀ c ∈ subSpaces (subParas (subHeader x)),
      pyIsSpace c = true → c = ' ' := by
    intro c hc hw
    rcases mem_collapseWs pyIsSpace _ c hc with h | ⟨_, h2⟩
    · exact h
    · rw [hw] at h2; cases h2
  have hA2a : noAdjWs (subSpaces (subParas (subHeader x))) :=
    collapseWs_chain pyIsSpace _
  have hA1b : ∀ c ∈ subPunctWs (subSpaces (subParas (subHeader x))),
      pyIsSpace c = true → c = ' ' := by
    intro c hc hw
    rcases mem_punctThenWs isJaPunct pyIsSpace _ c hc with h | h
    · exact h
    · exact hA1a c h hw
  have hA2b : noAdjWs (subPunctWs (subSpaces (subParas (subHeader x)))) :=
    punctThenWs_chainWs isJaPunct pyIsSpace
      (fun c hc => jaPunct_not_ws hc) _ hA2a
  have hA3b : punctSpaced (subPunctWs (subSpaces (subParas (subHeader x)))) :=
    punctThenWs_chainPunct isJaPunct pyIsSpace (by decide) _
  rw [subPunctTight_of_punctSpaced _ hA3b]
  have hinf := pyStrip_isInfix
    (subPunctWs (subSpaces (subParas (subHeader x))))
  refine ⟨?_, ?_, ?_, ?_⟩
  · intro c hc hw
    exact hA1b c (hinf.subset hc) hw
  · exact hA2b.infix hinf
  · exact hA3b.infix hinf
  · exact pyStrip_noEdgeWs _

theorem mdToSpeechList_fixed {y : List Char} (h1 : allWsSpace y)
    (h2 : noAdjWs y) (h3 : punctSpaced y) (h4 : noEdgeWs y) :
    mdToSpeechList y = y := by
  have hnl : '\n' ∉ y := by
    intro hm
    have := h1 '\n' hm (by decide)
    exact absurd this (by decide)
  unfold mdToSpeechList
  rw [subHeader_id y hnl, subParas_id y hnl]
  show pyStrip (subPunctTight (punctThenWs isJaPunct pyIsSpace
    (collapseWs pyIsSpace y))) = y
  rw [collapseWs_id pyIsSpace y h1 h2]
  rw [punctThenWs_spaced isJaPunct pyIsSpace (by decide) (by decide) y h2 h3]
  have hA3ext : punctSpaced (y ++ punctExt isJaPunct y) := by
    rcases hgl : y.getLast? with _ | c
    · have he : punctExt isJaPunct y = [] := by simp [punctExt, hgl]
      rw [he, List.append_nil]
      exact h3
    · by_cases hp : isJaPunct c = true
      · have he : punctExt isJaPunct y = [' '] := by simp [punctExt, hgl, hp]
        rw [he]
        refine List.chain'_append.mpr ⟨h3, by simp, ?_⟩
        intro a ha b hb
        simp only [List.head?_cons, Option.mem_def, Option.some.injEq] at hb
        subst hb
        intro
        rfl
      · have he : punctExt isJaPunct y = [] := by simp [punctExt, hgl, hp]
        rw [he, List.append_nil]
        exact h3
  rw [subPunctTight_of_punctSpaced _ hA3ext]
  rcases hgl : y.getLast? with _ | c
  · have hy : y = [] := by
      cases y with
      | nil => rfl
      | cons a t => simp at hgl
    subst hy
    rfl
  · by_cases hp : isJaPunct c = true
    · have he : punctExt isJaPunct y = [' '] := by simp [punctExt, hgl, hp]
      rw [he]
      apply pyStrip_append_space ?_ h4.1 h4.2
      intro hz
      rw [hz] at hgl
      simp at hgl
    · have he : punctExt isJaPunct y = [] := by simp [punctExt, hgl, hp]
      rw [he, List.append_nil]
      exact pyStrip_eq_self h4.1 h4.2

/-- C7: The narration-text transform is idempotent under re-application:
for every input string t, applying the markdown-to-speech-text transform
twice yields the same result as applying it once. -/
theorem c7_transform_idempotent (s : String) :
    markdown_to_speech_text (markdown_to_speech_text s) =
      markdown_to_speech_text s := by
  unfold markdown_to_speech_text
  congr 1
  show mdToSpeechList (mdToSpeechList s.data) = mdToSpeechList s.data
  obtain ⟨h1, h2, h3, h4⟩ := mdToSpeechList_inv s.data
  exact mdToSpeechList_fixed h1 h2 h3 h4
